import Mathlib

/-!
Shallow embedding of the Carehub availability and booking engine
(`core/utils/availability.py`, `core/models.py`, `core/api/serializers.py`).

Representation choices:
- Datetimes are natural numbers counting seconds from a fixed local
  epoch midnight; a calendar date is its day index, so the absolute
  datetime of second `t` of day `d` is `86400 * d + t`.  All values live
  in one timezone (the code runs in Django's single current timezone).
- A time-of-day (Django `TimeField`) is its seconds from midnight.
- `date.weekday()` with Monday = 0 is modelled as `d % 7` (the epoch day
  is a Monday).
- Python truncation of a datetime to whole minutes
  (`replace(second=0, microsecond=0)`) is `t / 60 * 60`; sub-second
  precision is below the model's resolution.
- Django querysets over a table are lists of records; `.filter`,
  `.exists`, `.update`, `.order_by` become `List.filter`, `List.any`,
  `List.map`, and a stable ascending sort (`List.insertionSort`).
-/

namespace Carehub

/-- Booking status, as in `Appointment.Status` / `FlexAppointment.Status`. -/
inductive Status where
  | pending
  | confirmed
  | cancelled
deriving DecidableEq, Repr

/-- User role, as in `User.Roles`. -/
inductive Role where
  | patient
  | physician
deriving DecidableEq, Repr

/-- `PhysicianWeeklyAvailability` row: a repeating weekly free window. -/
structure WeeklyWindow where
  physician : Nat
  weekday : Nat
  start_time : Nat
  end_time : Nat
  is_active : Bool
  snap_minutes : Nat
deriving DecidableEq, Repr

/-- `PhysicianDateOverride` row.  When `is_closed` is true the time
fields are unused (nullable in the code). -/
structure DateOverride where
  physician : Nat
  date : Nat
  is_closed : Bool
  start_time : Nat
  end_time : Nat
deriving DecidableEq, Repr

/-- `TimeOff` row: an absolute-time off block (`start`/`end` datetimes). -/
structure TimeOffRec where
  physician : Nat
  start : Nat
  stop : Nat
deriving DecidableEq, Repr

/-- `AvailabilitySlot` row: a pre-sliced block, possibly marked booked,
with an optional back-reference to the flexible appointment that
blocked it (`booked_by_flex`). -/
structure AvailabilitySlot where
  id : Nat
  physician : Nat
  start : Nat
  end_ : Nat
  is_booked : Bool
  booked_by_flex : Option Nat
deriving DecidableEq, Repr

/-- Legacy `Appointment` row.  The one-to-one `slot` relation is
flattened to the linked slot's interval (`slot__start`, `slot__end`),
which is all the engine reads from it. -/
structure Appointment where
  physician : Nat
  patient : Nat
  slot_start : Nat
  slot_end : Nat
  status : Status
deriving DecidableEq, Repr

/-- `FlexAppointment` row: an arbitrary start and end booking. -/
structure FlexAppointment where
  id : Nat
  physician : Nat
  patient : Nat
  start : Nat
  end_ : Nat
  status : Status
deriving DecidableEq, Repr

/-- The committed database state the engine reads and writes. -/
structure DB where
  weekly : List WeeklyWindow
  overrides : List DateOverride
  time_off : List TimeOffRec
  slots : List AvailabilitySlot
  appointments : List Appointment
  flex : List FlexAppointment
deriving DecidableEq, Repr

/-- The `status__in=[PENDING, CONFIRMED]` queryset filter used by every
conflict query. -/
def statusActive : Status → Bool
  | .pending => true
  | .confirmed => true
  | .cancelled => false

/-- `availability._day_windows_for_physician`: free windows for one
local calendar date as `(start_time, end_time)` pairs of seconds from
that date's midnight.  The code attaches a step of 15 minutes to each
window which `_iter_candidates` ignores, so it is dropped here. -/
def day_windows_for_physician (db : DB) (phys date : Nat) : List (Nat × Nat) :=
  let override_qs := db.overrides.filter (fun o => o.physician = phys ∧ o.date = date)
  if override_qs.any (fun o => o.is_closed) then []
  else
    let override_windows :=
      (override_qs.filter (fun o => o.is_closed = false)).insertionSort
        (fun a b => a.start_time ≤ b.start_time)
    if override_windows.isEmpty = false then
      override_windows.map (fun o => (o.start_time, o.end_time))
    else
      let weekly_qs :=
        (db.weekly.filter (fun w =>
          w.physician = phys ∧ w.weekday = date % 7 ∧ w.is_active = true)).insertionSort
          (fun a b => a.start_time ≤ b.start_time)
      (weekly_qs.filter (fun w => w.start_time < w.end_time)).map
        (fun w => (w.start_time, w.end_time))

/-- `availability._round_up_to_step`: round a datetime up to the next
multiple of `step_minutes` from midnight.  `base` is the datetime with
seconds dropped; `base.hour * 60 + base.minute` is `base / 60`. -/
def round_up_to_step (dt : Nat) (step_minutes : Nat) : Nat :=
  let base := dt / 60 * 60
  let minutes_from_midnight := base / 60
  let remainder := minutes_from_midnight % step_minutes
  if remainder = 0 ∧ dt ≤ base then base
  else
    let bump := (step_minutes - remainder) % step_minutes
    let snapped := base + bump * 60
    if snapped ≤ dt then snapped + step_minutes * 60 else snapped

/-- The loop of `availability._iter_candidates`: yield `cur` and step by
`step` seconds while `cur ≤ latest_start`.  The guard
`cur ≤ latest_start = wend - step` is written `cur + step ≤ wend` so the
whole loop stays in `Nat` (datetime subtraction cannot truncate).
`fuel` bounds the iteration count; callers pass enough fuel that the
loop always stops on its own guard. -/
def iter_go (step wend : Nat) : Nat → Nat → List Nat
  | 0, _ => []
  | fuel + 1, cur =>
      if cur + step ≤ wend then cur :: iter_go step wend fuel (cur + step) else []

/-- `availability._iter_candidates`: duration-aligned candidate starts
inside the window `[wstart, wend)`, stepping by the requested slot
size. -/
def iter_candidates (wstart wend slot_minutes : Nat) : List Nat :=
  iter_go (60 * slot_minutes) wend (wend + 1) (round_up_to_step wstart slot_minutes)

/-- `availability._has_conflict`: true when the physician has any
pending or confirmed legacy `Appointment` whose slot interval overlaps
`[start_dt, end_dt)`.  This is the only table the query touches. -/
def has_conflict (db : DB) (phys start_dt end_dt : Nat) : Bool :=
  db.appointments.any (fun a =>
    a.physician = phys ∧ statusActive a.status = true ∧
      a.slot_start < end_dt ∧ start_dt < a.slot_end)

/-- `availability.get_available_slots`: absolute available start
datetimes for `slot_minutes` inside the physician's windows on day
`date`, skipping past starts and conflicting starts, finally sorted
ascending (`result.sort()`). -/
def get_available_slots (db : DB) (phys date slot_minutes now : Nat) : List Nat :=
  let windows := day_windows_for_physician db phys date
  let raw := windows.flatMap (fun w =>
    (iter_candidates w.1 w.2 slot_minutes).filterMap (fun c =>
      let start := 86400 * date + c
      if start < now then none
      else if has_conflict db phys start (start + 60 * slot_minutes) then none
      else some start))
  raw.insertionSort (· ≤ ·)

/-- `FlexAppointment.clean`: basic validation plus the conflict re-check
performed inside the booking transaction.  It looks only at the
physician's other pending/confirmed `FlexAppointment`s (excluding the
row being saved) and at the physician's pending/confirmed legacy
`Appointment`s.  `physician_role` is the `role` attribute of the
appointment's physician user. -/
def flex_clean (db : DB) (a : FlexAppointment) (physician_role : Role) : Bool :=
  if a.end_ ≤ a.start then false
  else if physician_role ≠ Role.physician then false
  else if db.flex.any (fun f =>
      f.physician = a.physician ∧ statusActive f.status = true ∧
        f.start < a.end_ ∧ a.start < f.end_ ∧ f.id ≠ a.id) then false
  else if db.appointments.any (fun ap =>
      ap.physician = a.physician ∧ statusActive ap.status = true ∧
        ap.slot_start < a.end_ ∧ a.start < ap.slot_end) then false
  else true

/-- `FlexAppointment._block_overlapping_slots`: mark the physician's
pre-sliced slots overlapping a confirmed appointment as booked, with a
back-reference to the appointment. -/
def block_overlapping_slots (slots : List AvailabilitySlot) (a : FlexAppointment) :
    List AvailabilitySlot :=
  if a.status ≠ Status.confirmed then slots
  else slots.map (fun s =>
    if s.physician = a.physician ∧ s.start < a.end_ ∧ a.start < s.end_
    then { s with is_booked := true, booked_by_flex := some a.id } else s)

/-- `FlexAppointment._release_blocked_slots`: release exactly the slots
whose back-reference is this appointment. -/
def release_blocked_slots (slots : List AvailabilitySlot) (flex_id : Nat) :
    List AvailabilitySlot :=
  slots.map (fun s =>
    if s.booked_by_flex = some flex_id
    then { s with is_booked := false, booked_by_flex := none } else s)

/-- `FlexAppointment.save`: the atomic save.  Reads the old row's status,
runs `full_clean` (abort with `none` on validation failure, leaving the
state unchanged), writes the row, blocks overlapping slots when the new
status is confirmed, and releases its blocked slots when the status
changed to cancelled. -/
def flex_save (db : DB) (a : FlexAppointment) (physician_role : Role) : Option DB :=
  let creating := db.flex.any (fun f => f.id = a.id) = false
  let old_status := (db.flex.find? (fun f => f.id = a.id)).map (fun f => f.status)
  if flex_clean db a physician_role = false then none
  else
    let flex1 := if creating then db.flex ++ [a]
                 else db.flex.map (fun f => if f.id = a.id then a else f)
    let db1 : DB := { db with flex := flex1 }
    let db2 : DB :=
      if a.status = Status.confirmed
      then { db1 with slots := block_overlapping_slots db1.slots a } else db1
    match old_status with
    | some os =>
        if os ≠ a.status ∧ a.status = Status.cancelled
        then some { db2 with slots := release_blocked_slots db2.slots a.id }
        else some db2
    | none => some db2

/-- `FlexAppointmentCreateSerializer._to_local_minute`: truncate a
datetime to whole-minute precision. -/
def to_local_minute (dt : Nat) : Nat := dt / 60 * 60

/-- `FlexAppointmentCreateSerializer.validate`: reject a request whose
end is not in the future, whose physician has no available starts on the
requested local date, or whose minute-truncated start is not among the
generated available starts (compared through per-minute keys
`timestamp // 60`).  Returns the accepted normalized start. -/
def serializer_validate (db : DB) (phys start duration_minutes now : Nat) : Option Nat :=
  let start_local := to_local_minute start
  let end_local := start_local + 60 * duration_minutes
  if end_local ≤ now then none
  else
    let available_starts :=
      get_available_slots db phys (start_local / 86400) duration_minutes now
    if available_starts.isEmpty then none
    else
      let normalized_available := available_starts.map (fun s => to_local_minute s / 60)
      let requested_minute_key := start_local / 60
      if requested_minute_key ∈ normalized_available then some start_local else none

/-- Modelled from the spec: the conflict predicate as section 4.3 words
it, searching all three sources of truth — pending/confirmed fixed
bookings, pending/confirmed flexible bookings, and booked pre-sliced
slots — with the half-open overlap predicate.  Used only to compare the
specified predicate against the implemented `has_conflict`. -/
def spec_conflict (db : DB) (phys start_dt end_dt : Nat) : Bool :=
  db.appointments.any (fun a =>
    a.physician = phys ∧ statusActive a.status = true ∧
      a.slot_start < end_dt ∧ start_dt < a.slot_end) ||
  db.flex.any (fun f =>
    f.physician = phys ∧ statusActive f.status = true ∧
      f.start < end_dt ∧ start_dt < f.end_) ||
  db.slots.any (fun s =>
    s.physician = phys ∧ s.is_booked = true ∧ s.start < end_dt ∧ start_dt < s.end_)

/-- State for the C1 failing input: physician 1 works Mondays
09:00-17:00 (day 0 is a Monday) and holds a confirmed flexible booking
10:00-10:45 (seconds 36000-38700).  No legacy appointments exist. -/
def db_c1 : DB :=
  { weekly := [⟨1, 0, 32400, 61200, true, 15⟩],
    overrides := [], time_off := [], slots := [], appointments := [],
    flex := [⟨1, 1, 2, 36000, 38700, Status.confirmed⟩] }

/-- The C1 state before the flexible booking is committed. -/
def db_c1_before : DB :=
  { weekly := [⟨1, 0, 32400, 61200, true, 15⟩],
    overrides := [], time_off := [], slots := [], appointments := [],
    flex := [] }

/-- State for the C2 counterexample: one confirmed flexible booking
10:00-10:45 for physician 1 and nothing else. -/
def db_c2 : DB :=
  { weekly := [], overrides := [], time_off := [], slots := [],
    appointments := [],
    flex := [⟨1, 1, 2, 36000, 38700, Status.confirmed⟩] }

/-- State for the C3 failing input: physician 1 works Mondays
09:00-17:00 and has a time-off block 09:00-12:00 on day 0. -/
def db_c3 : DB :=
  { weekly := [⟨1, 0, 32400, 61200, true, 15⟩],
    overrides := [], time_off := [⟨1, 32400, 43200⟩], slots := [],
    appointments := [], flex := [] }

/-- State for the C4 counterexample: physician 11 works Mondays
09:00-17:00; patient 2 already holds a confirmed booking 10:00-10:45
with a different physician, number 10. -/
def db_c4 : DB :=
  { weekly := [⟨11, 0, 32400, 61200, true, 15⟩],
    overrides := [], time_off := [], slots := [], appointments := [],
    flex := [⟨1, 10, 2, 36000, 38700, Status.confirmed⟩] }

/-- The C4 booking request: patient 2 books physician 11 for
10:00-10:30, overlapping the patient's own booking with physician 10. -/
def appt_c4 : FlexAppointment :=
  ⟨2, 11, 2, 36000, 37800, Status.confirmed⟩

/-- The state `flex_save` produces for the C4 request: the new booking
is committed alongside the patient's other booking. -/
def db_c4_after : DB :=
  { db_c4 with flex := [⟨1, 10, 2, 36000, 38700, Status.confirmed⟩, appt_c4] }

/-- C5 witness state: a closed override on day 0 together with an open
override and a weekly window, so the closed override must win. -/
def db_c5_closed : DB :=
  { weekly := [⟨1, 0, 32400, 61200, true, 15⟩],
    overrides := [⟨1, 0, true, 0, 0⟩, ⟨1, 0, false, 28800, 43200⟩],
    time_off := [], slots := [], appointments := [], flex := [] }

/-- C5 witness state: two open overrides on day 0 plus a weekly window
that must be ignored. -/
def db_c5_override : DB :=
  { weekly := [⟨1, 0, 32400, 61200, true, 15⟩],
    overrides := [⟨1, 0, false, 46800, 54000⟩, ⟨1, 0, false, 28800, 43200⟩],
    time_off := [], slots := [], appointments := [], flex := [] }

/-- C5 witness state: no override on day 0; weekly windows include an
inactive one, one on another weekday, and a degenerate one, all of
which must be dropped.  The only override is for another date. -/
def db_c5_weekly : DB :=
  { weekly := [⟨1, 0, 32400, 61200, true, 15⟩, ⟨1, 0, 28800, 30600, true, 15⟩,
      ⟨1, 1, 0, 3600, true, 15⟩, ⟨1, 0, 40000, 39999, true, 15⟩,
      ⟨1, 0, 0, 3600, false, 15⟩],
    overrides := [⟨1, 3, false, 0, 3600⟩],
    time_off := [], slots := [], appointments := [], flex := [] }

/-- State for the C7 counterexample: two overlapping weekly windows on
day 0, 09:00-10:00 and 09:00-11:00, both generating the starts 09:00
and 09:30. -/
def db_c7 : DB :=
  { weekly := [⟨1, 0, 32400, 36000, true, 15⟩, ⟨1, 0, 32400, 39600, true, 15⟩],
    overrides := [], time_off := [], slots := [], appointments := [], flex := [] }

/-- C9 witness state: a confirmed flexible booking 1 that blocked slot
row 1; slot row 2 is blocked by a different booking 5 and slot row 3 is
free. -/
def db_c9 : DB :=
  { weekly := [], overrides := [], time_off := [],
    slots := [⟨1, 10, 36000, 37800, true, some 1⟩,
      ⟨2, 10, 37800, 38700, true, some 5⟩,
      ⟨3, 10, 50000, 51000, false, none⟩],
    appointments := [],
    flex := [⟨1, 10, 2, 36000, 38700, Status.confirmed⟩] }

/-- The C9 cancellation: booking 1 with its status moved to cancelled. -/
def appt_c9 : FlexAppointment :=
  ⟨1, 10, 2, 36000, 38700, Status.cancelled⟩

/-- The state `flex_save` produces for the C9 cancellation: slot row 1
is released, rows 2 and 3 are untouched. -/
def db_c9_after : DB :=
  { db_c9 with
    flex := [appt_c9],
    slots := [⟨1, 10, 36000, 37800, false, none⟩,
      ⟨2, 10, 37800, 38700, true, some 5⟩,
      ⟨3, 10, 50000, 51000, false, none⟩] }

/-- C10 witness state: physician 1 works Mondays 09:00-17:00 with no
bookings. -/
def db_c10 : DB :=
  { weekly := [⟨1, 0, 32400, 61200, true, 15⟩],
    overrides := [], time_off := [], slots := [], appointments := [], flex := [] }

/-- Closed form of `round_up_to_step` with the inner truncation
`dt / 60 * 60 / 60` simplified to `dt / 60`. -/
theorem round_up_eq (dt m : Nat) :
    round_up_to_step dt m =
      if dt / 60 % m = 0 ∧ dt ≤ dt / 60 * 60 then dt / 60 * 60
      else if dt / 60 * 60 + (m - dt / 60 % m) % m * 60 ≤ dt
        then dt / 60 * 60 + (m - dt / 60 % m) % m * 60 + m * 60
        else dt / 60 * 60 + (m - dt / 60 % m) % m * 60 := by
  unfold round_up_to_step
  dsimp only
  rw [Nat.mul_div_cancel _ (by norm_num : (0 : Nat) < 60)]

/-- `round_up_to_step dt m` is a multiple of `60 * m` seconds, is at
least `dt`, and is less than `dt + 60 * m`: it is the least multiple of
the step not before `dt`. -/
theorem round_up_props (dt m : Nat) (hm : 0 < m) :
    60 * m ∣ round_up_to_step dt m ∧ dt ≤ round_up_to_step dt m ∧
      round_up_to_step dt m < dt + 60 * m := by
  have hqr : 60 * (dt / 60) + dt % 60 = dt := Nat.div_add_mod dt 60
  have hmod : dt % 60 < 60 := Nat.mod_lt _ (by norm_num)
  rw [round_up_eq]
  set q := dt / 60 with hq
  set r := q % m with hr
  have hrm : r < m := Nat.mod_lt _ hm
  have hqm : m * (q / m) + r = q := Nat.div_add_mod q m
  set b := (m - r) % m with hbdef
  have hbm : b < m := Nat.mod_lt _ hm
  have hbr : (r = 0 ∧ b = 0) ∨ (r ≠ 0 ∧ b = m - r) := by
    rcases Nat.eq_zero_or_pos r with h | h
    · exact Or.inl ⟨h, by simp [hbdef, h]⟩
    · exact Or.inr ⟨by omega, by rw [hbdef]; exact Nat.mod_eq_of_lt (by omega)⟩
  have hdvdqb : m ∣ q + b := by
    rcases hbr with ⟨h1, h2⟩ | ⟨h1, h2⟩
    · rw [h2, Nat.add_zero]
      exact Nat.dvd_of_mod_eq_zero (hr ▸ h1)
    · refine ⟨q / m + 1, ?_⟩
      have hexp : m * (q / m + 1) = m * (q / m) + m := by ring
      omega
  split_ifs with h1 h2
  · obtain ⟨k, hk⟩ : m ∣ q := Nat.dvd_of_mod_eq_zero (hr ▸ h1.1)
    refine ⟨⟨k, by rw [hk]; ring⟩, h1.2, ?_⟩
    omega
  · refine ⟨?_, by omega, ?_⟩
    · have heq : q * 60 + b * 60 + m * 60 = 60 * (q + b + m) := by ring
      rw [heq]
      exact mul_dvd_mul_left 60 (Nat.dvd_add hdvdqb dvd_rfl)
    · have hne : q * 60 + b * 60 ≠ dt := by
        intro heq
        have hb0 : b = 0 := by omega
        rcases hbr with ⟨hr0, _⟩ | ⟨hrne, hbmr⟩
        · exact h1 ⟨hr0, by omega⟩
        · omega
      omega
  · refine ⟨?_, by omega, by omega⟩
    have heq : q * 60 + b * 60 = 60 * (q + b) := by ring
    rw [heq]
    exact mul_dvd_mul_left 60 hdvdqb

/-- `round_up_to_step` is the least step multiple not before `dt`. -/
theorem round_up_le_of_dvd (dt m c : Nat) (hm : 0 < m)
    (hdvd : 60 * m ∣ c) (hge : dt ≤ c) : round_up_to_step dt m ≤ c := by
  obtain ⟨hd, hge2, hlt⟩ := round_up_props dt m hm
  obtain ⟨a, ha⟩ := hd
  obtain ⟨k, hk⟩ := hdvd
  have hak : a ≤ k := by
    by_contra hh
    push_neg at hh
    have h1 : 60 * m * (k + 1) ≤ 60 * m * a := Nat.mul_le_mul_left _ hh
    have h2 : 60 * m * (k + 1) = 60 * m * k + 60 * m := by ring
    have h3 : 60 * m * a < 60 * m * k + 60 * m := by
      calc 60 * m * a = round_up_to_step dt m := ha.symm
      _ < dt + 60 * m := hlt
      _ ≤ c + 60 * m := by omega
      _ = 60 * m * k + 60 * m := by rw [hk]
    omega
  calc round_up_to_step dt m = 60 * m * a := ha
    _ ≤ 60 * m * k := Nat.mul_le_mul_left _ hak
    _ = c := hk.symm

/-- With enough fuel, the loop yields exactly the arithmetic progression
from `cur` with step `step` whose elements still fit before `wend`. -/
theorem iter_go_mem (step wend : Nat) (hstep : 0 < step) :
    ∀ (fuel cur : Nat), wend + 1 ≤ cur + step * fuel →
      ∀ x, (x ∈ iter_go step wend fuel cur ↔
        ∃ k : Nat, x = cur + step * k ∧ x + step ≤ wend)
  | 0, cur, hfuel, x => by
      simp only [iter_go, List.not_mem_nil, false_iff]
      rintro ⟨k, hk, hle⟩
      have hcx : cur ≤ x := hk ▸ Nat.le_add_right _ _
      omega
  | fuel + 1, cur, hfuel, x => by
      have hfuel2 : wend + 1 ≤ (cur + step) + step * fuel := by
        have : cur + step * (fuel + 1) = (cur + step) + step * fuel := by ring
        omega
      unfold iter_go
      split_ifs with hc
      · rw [List.mem_cons, iter_go_mem step wend hstep fuel (cur + step) hfuel2 x]
        constructor
        · rintro (rfl | ⟨k, hk, hle⟩)
          · exact ⟨0, by simp, by omega⟩
          · exact ⟨k + 1, by rw [hk]; ring, hle⟩
        · rintro ⟨k, hk, hle⟩
          cases k with
          | zero => exact Or.inl (by omega)
          | succ k => exact Or.inr ⟨k, by rw [hk]; ring, hle⟩
      · simp only [List.not_mem_nil, false_iff]
        rintro ⟨k, hk, hle⟩
        have hcx : cur ≤ x := hk ▸ Nat.le_add_right _ _
        omega

/-- The head of the loop output, when any, is its starting point. -/
theorem iter_go_head (step wend fuel cur y : Nat)
    (h : (iter_go step wend fuel cur).head? = some y) : y = cur := by
  cases fuel with
  | zero => simp [iter_go] at h
  | succ fuel =>
      unfold iter_go at h
      split_ifs at h with hc
      · simpa using h.symm
      · simp at h

/-- Consecutive loop outputs differ by exactly `step`. -/
theorem iter_go_chain (step wend : Nat) :
    ∀ (fuel cur : Nat),
      List.Chain' (fun a b => b = a + step) (iter_go step wend fuel cur)
  | 0, cur => by simp [iter_go]
  | fuel + 1, cur => by
      unfold iter_go
      split_ifs with hc
      · rw [List.chain'_cons']
        refine ⟨fun y hy => ?_, iter_go_chain step wend fuel (cur + step)⟩
        exact iter_go_head step wend fuel (cur + step) y hy
      · simp

/-- Membership characterization of `iter_candidates`: for a positive
slot size, the candidates are exactly the starts on the
duration-from-midnight grid that are not before the window start and
whose end fits in the window. -/
theorem iter_candidates_mem (wstart wend m x : Nat) (hm : 0 < m) :
    x ∈ iter_candidates wstart wend m ↔
      60 * m ∣ x ∧ wstart ≤ x ∧ x + 60 * m ≤ wend := by
  obtain ⟨hdvd, hge, hlt⟩ := round_up_props wstart m hm
  have hstep : 0 < 60 * m := by omega
  have hfuel : wend + 1 ≤ round_up_to_step wstart m + 60 * m * (wend + 1) := by
    have h1 : wend + 1 ≤ 60 * m * (wend + 1) :=
      Nat.le_mul_of_pos_left _ hstep
    omega
  rw [iter_candidates, iter_go_mem (60 * m) wend hstep (wend + 1)
    (round_up_to_step wstart m) hfuel x]
  constructor
  · rintro ⟨k, rfl, hle⟩
    obtain ⟨a, ha⟩ := hdvd
    refine ⟨⟨a + k, by rw [ha]; ring⟩, ?_, hle⟩
    exact le_trans hge (Nat.le_add_right _ _)
  · rintro ⟨hxdvd, hxge, hxle⟩
    have hrux : round_up_to_step wstart m ≤ x :=
      round_up_le_of_dvd wstart m x hm hxdvd hxge
    obtain ⟨a, ha⟩ := hdvd
    obtain ⟨c, hc⟩ := hxdvd
    have hac : a ≤ c := by
      by_contra hh
      push_neg at hh
      have h2 : 60 * m * (c + 1) ≤ 60 * m * a := Nat.mul_le_mul_left (60 * m) hh
      have hexp : 60 * m * (c + 1) = 60 * m * c + 60 * m := by ring
      omega
    obtain ⟨t, ht⟩ := Nat.exists_eq_add_of_le hac
    exact ⟨t, by rw [ha, hc, ht]; ring, hxle⟩

/-- `statusActive` unfolds to the two non-cancelled statuses. -/
theorem statusActive_iff (s : Status) :
    statusActive s = true ↔ s = Status.pending ∨ s = Status.confirmed := by
  cases s <;> simp [statusActive]

/-- Membership in the availability result: an absolute start is offered
exactly when some resolved window generates it as a candidate, it is not
in the past, and the conflict query rejects nothing. -/
theorem mem_get_available_slots (db : DB) (phys date m now x : Nat) :
    x ∈ get_available_slots db phys date m now ↔
      ∃ w ∈ day_windows_for_physician db phys date,
        ∃ c ∈ iter_candidates w.1 w.2 m,
          x = 86400 * date + c ∧ now ≤ x ∧
            has_conflict db phys x (x + 60 * m) = false := by
  unfold get_available_slots
  rw [(List.perm_insertionSort _ _).mem_iff]
  simp only [List.mem_flatMap, List.mem_filterMap]
  constructor
  · rintro ⟨w, hw, c, hc, hsome⟩
    by_cases hpast : 86400 * date + c < now
    · rw [if_pos hpast] at hsome
      exact absurd hsome (by simp)
    · rw [if_neg hpast] at hsome
      by_cases hconf :
          has_conflict db phys (86400 * date + c) (86400 * date + c + 60 * m) = true
      · rw [if_pos hconf] at hsome
        exact absurd hsome (by simp)
      · rw [if_neg hconf] at hsome
        obtain rfl : 86400 * date + c = x := Option.some_inj.mp hsome
        exact ⟨w, hw, c, hc, rfl, by omega, by simpa using hconf⟩
  · rintro ⟨w, hw, c, hc, rfl, hnow, hconf⟩
    refine ⟨w, hw, c, hc, ?_⟩
    rw [if_neg (by omega), if_neg (by simp [hconf])]

/-- Every offered start is a whole minute (it lies on the duration grid
of some day, and days are whole minutes). -/
theorem mem_get_available_slots_dvd60 (db : DB) (phys date m now x : Nat)
    (hm : 0 < m) (hx : x ∈ get_available_slots db phys date m now) :
    60 ∣ x := by
  rw [mem_get_available_slots] at hx
  obtain ⟨w, hw, c, hc, rfl, -, -⟩ := hx
  rw [iter_candidates_mem _ _ _ _ hm] at hc
  obtain ⟨⟨k, hk⟩, -, -⟩ := hc
  exact ⟨1440 * date + m * k, by rw [hk]; ring⟩

/-- C1: the claim requires that after a committed flexible booking with
start 36000 (10:00) and duration 45, `get_available_slots` for the same
physician, date and a 30-minute duration contains neither 36000 nor any
start overlapping 36000-38700.  The code violates this: `_has_conflict`
only queries legacy `Appointment` rows, so both the booked start 36000
and the overlapping start 37800 (10:30) are still offered. -/
theorem c1_flex_booking_still_listed :
    flex_save db_c1_before ⟨1, 1, 2, 36000, 38700, Status.confirmed⟩
      Role.physician = some db_c1 ∧
    (∃ f ∈ db_c1.flex, f.physician = 1 ∧ f.status = Status.confirmed ∧
        f.start = 36000 ∧ f.end_ = 38700) ∧
    36000 ∈ get_available_slots db_c1 1 0 30 0 ∧
    37800 ∈ get_available_slots db_c1 1 0 30 0 := by decide

/-- C2 counterexample: with one confirmed flexible booking overlapping
the probed interval and nothing else, the claimed equivalence between
`_has_conflict` and the three-source conflict set fails: the specified
predicate is true, the implemented one is false. -/
theorem c2_counterexample :
    has_conflict db_c2 1 36000 38700 = false ∧
      spec_conflict db_c2 1 36000 38700 = true := by decide

/-- C2 amended: `_has_conflict` returns true exactly when some legacy
fixed `Appointment` of the provider with status pending or confirmed
has a slot interval `[c, d)` with `start < d` and `c < end`; in
particular cancelled bookings never cause a conflict, and flexible
bookings, pre-sliced slots and every other table are never consulted. -/
theorem c2_has_conflict_legacy_only (db : DB) (phys s e : Nat) :
    (has_conflict db phys s e = true ↔
      ∃ a ∈ db.appointments, a.physician = phys ∧
        (a.status = Status.pending ∨ a.status = Status.confirmed) ∧
        a.slot_start < e ∧ s < a.slot_end) ∧
    (∀ (W : List WeeklyWindow) (O : List DateOverride) (T : List TimeOffRec)
        (SL : List AvailabilitySlot) (F : List FlexAppointment),
      has_conflict { db with weekly := W, overrides := O, time_off := T, slots := SL, flex := F }
          phys s e = has_conflict db phys s e) := by
  constructor
  · simp [has_conflict, List.any_eq_true, statusActive_iff, and_assoc]
  · intro W O T SL F
    rfl

/-- C3: the claim requires that no returned start overlaps a time-off
block.  The code never reads the `TimeOff` table when computing
availability, contradicting the model documentation, so the start 32400
(09:00) is offered although a time-off block covers 09:00-12:00. -/
theorem c3_time_off_not_subtracted :
    (∃ t ∈ db_c3.time_off, t.physician = 1 ∧ t.start < 32400 + 60 * 30 ∧
        32400 < t.stop) ∧
    32400 ∈ get_available_slots db_c3 1 0 30 0 := by decide

/-- Characterization of `flex_clean`: validation passes exactly when
the interval is well formed, the physician role is correct, and the
physician — only the physician — has no overlapping active flexible or
legacy booking. -/
theorem flex_clean_iff (db : DB) (a : FlexAppointment) (r : Role) :
    flex_clean db a r = true ↔
      a.start < a.end_ ∧ r = Role.physician ∧
        (¬ ∃ f ∈ db.flex, f.id ≠ a.id ∧ f.physician = a.physician ∧
          (f.status = Status.pending ∨ f.status = Status.confirmed) ∧
          f.start < a.end_ ∧ a.start < f.end_) ∧
        (¬ ∃ ap ∈ db.appointments, ap.physician = a.physician ∧
          (ap.status = Status.pending ∨ ap.status = Status.confirmed) ∧
          ap.slot_start < a.end_ ∧ a.start < ap.slot_end) := by
  unfold flex_clean
  split_ifs with h1 h2 h3 h4
  · exact iff_of_false (by simp) (by rintro ⟨hlt, -⟩; omega)
  · exact iff_of_false (by simp) (by rintro ⟨-, hr, -⟩; exact h2 hr)
  · refine iff_of_false (by simp) ?_
    rintro ⟨-, -, hno, -⟩
    simp only [List.any_eq_true, decide_eq_true_eq, statusActive_iff] at h3
    obtain ⟨f, hf, hp, hs, h5, h6, h7⟩ := h3
    exact hno ⟨f, hf, h7, hp, hs, h5, h6⟩
  · refine iff_of_false (by simp) ?_
    rintro ⟨-, -, -, hno⟩
    simp only [List.any_eq_true, decide_eq_true_eq, statusActive_iff] at h4
    obtain ⟨ap, hap, hp, hs, h5, h6⟩ := h4
    exact hno ⟨ap, hap, hp, hs, h5, h6⟩
  · refine iff_of_true rfl ⟨by omega, by tauto, ?_, ?_⟩
    · intro hex
      apply h3
      simp only [List.any_eq_true, decide_eq_true_eq, statusActive_iff]
      obtain ⟨f, hf, h7, hp, hs, h5, h6⟩ := hex
      exact ⟨f, hf, hp, hs, h5, h6, h7⟩
    · intro hex
      apply h4
      simp only [List.any_eq_true, decide_eq_true_eq, statusActive_iff]
      obtain ⟨ap, hap, hp, hs, h5, h6⟩ := hex
      exact ⟨ap, hap, hp, hs, h5, h6⟩

/-- C4 counterexample: patient 2 already holds a confirmed overlapping
booking with physician 10, yet a request to book physician 11 for the
same time passes the serializer validation, passes `clean`, and commits
a new booking — the claim requires a conflict abort here. -/
theorem c4_counterexample :
    (∃ f ∈ db_c4.flex, f.patient = appt_c4.patient ∧
        f.physician ≠ appt_c4.physician ∧
        (f.status = Status.pending ∨ f.status = Status.confirmed) ∧
        f.start < appt_c4.end_ ∧ appt_c4.start < f.end_) ∧
    serializer_validate db_c4 11 36000 30 0 = some 36000 ∧
    flex_save db_c4 appt_c4 Role.physician = some db_c4_after ∧
    appt_c4 ∈ db_c4_after.flex := by decide

/-- C4 amended: the booking transaction re-checks conflicts only on the
provider side: validation passes exactly when the interval is well
formed, the physician role is correct, and the physician has no
overlapping pending or confirmed flexible or legacy booking; rows of
other physicians — in particular the requesting client's bookings with
other providers — never affect the outcome. -/
theorem c4_provider_side_check_only (db : DB) (a : FlexAppointment) (r : Role) :
    (flex_clean db a r = true ↔
      a.start < a.end_ ∧ r = Role.physician ∧
        (¬ ∃ f ∈ db.flex, f.id ≠ a.id ∧ f.physician = a.physician ∧
          (f.status = Status.pending ∨ f.status = Status.confirmed) ∧
          f.start < a.end_ ∧ a.start < f.end_) ∧
        (¬ ∃ ap ∈ db.appointments, ap.physician = a.physician ∧
          (ap.status = Status.pending ∨ ap.status = Status.confirmed) ∧
          ap.slot_start < a.end_ ∧ a.start < ap.slot_end)) ∧
    flex_clean { db with
        flex := db.flex.filter (fun f => f.physician = a.physician),
        appointments := db.appointments.filter (fun ap => ap.physician = a.physician) }
      a r = flex_clean db a r := by
  refine ⟨flex_clean_iff db a r, ?_⟩
  have h1 := flex_clean_iff db a r
  have h2 := flex_clean_iff { db with
    flex := db.flex.filter (fun f => f.physician = a.physician),
    appointments := db.appointments.filter (fun ap => ap.physician = a.physician) } a r
  simp only [List.mem_filter, decide_eq_true_eq] at h2
  have hiff : flex_clean { db with
      flex := db.flex.filter (fun f => f.physician = a.physician),
      appointments := db.appointments.filter (fun ap => ap.physician = a.physician) }
        a r = true ↔ flex_clean db a r = true := by
    rw [h1, h2]
    constructor
    · rintro ⟨hlt, hr, hnf, hna⟩
      refine ⟨hlt, hr, ?_, ?_⟩
      · rintro ⟨f, hf, h7, hp, hs, h5, h6⟩
        exact hnf ⟨f, ⟨hf, hp⟩, h7, hp, hs, h5, h6⟩
      · rintro ⟨ap, hap, hp, hs, h5, h6⟩
        exact hna ⟨ap, ⟨hap, hp⟩, hp, hs, h5, h6⟩
    · rintro ⟨hlt, hr, hnf, hna⟩
      refine ⟨hlt, hr, ?_, ?_⟩
      · rintro ⟨f, ⟨hf, -⟩, h7, hp, hs, h5, h6⟩
        exact hnf ⟨f, hf, h7, hp, hs, h5, h6⟩
      · rintro ⟨ap, ⟨hap, -⟩, hp, hs, h5, h6⟩
        exact hna ⟨ap, hap, hp, hs, h5, h6⟩
  cases hb : flex_clean db a r
  · cases hb2 : flex_clean { db with
      flex := db.flex.filter (fun f => f.physician = a.physician),
      appointments := db.appointments.filter (fun ap => ap.physician = a.physician) } a r
    · rfl
    · exact absurd (hb ▸ hiff.mp hb2) (by simp)
  · exact hiff.mpr hb

/-- C5: override resolution.  Any closed override for the date forces
the empty window list; otherwise present non-closed overrides become
exactly the day's windows (up to the ascending reordering) and weekly
windows contribute nothing; only when no override at all exists for the
date are the active weekly windows of that weekday used. -/
theorem c5_resolve_windows (db : DB) (phys date : Nat) :
    ((∃ o ∈ db.overrides, o.physician = phys ∧ o.date = date ∧ o.is_closed = true) →
      day_windows_for_physician db phys date = []) ∧
    ((¬ ∃ o ∈ db.overrides, o.physician = phys ∧ o.date = date ∧ o.is_closed = true) →
     (∃ o ∈ db.overrides, o.physician = phys ∧ o.date = date ∧ o.is_closed = false) →
      (day_windows_for_physician db phys date).Perm
        ((db.overrides.filter (fun o =>
            o.physician = phys ∧ o.date = date ∧ o.is_closed = false)).map
          (fun o => (o.start_time, o.end_time)))) ∧
    ((¬ ∃ o ∈ db.overrides, o.physician = phys ∧ o.date = date) →
      (day_windows_for_physician db phys date).Perm
        ((db.weekly.filter (fun w =>
            w.physician = phys ∧ w.weekday = date % 7 ∧ w.is_active = true ∧
              w.start_time < w.end_time)).map
          (fun w => (w.start_time, w.end_time)))) := by
  refine ⟨?_, ?_, ?_⟩
  · rintro ⟨o, ho, h1, h2, h3⟩
    unfold day_windows_for_physician
    rw [if_pos]
    exact List.any_eq_true.mpr
      ⟨o, List.mem_filter.mpr ⟨ho, by simp [h1, h2]⟩, by simp [h3]⟩
  · rintro hnc ⟨o, ho, h1, h2, h3⟩
    unfold day_windows_for_physician
    have hA : ¬ (db.overrides.filter
        (fun o => decide (o.physician = phys ∧ o.date = date))).any
          (fun o => o.is_closed) = true := by
      intro hany
      obtain ⟨x, hx, hcl⟩ := List.any_eq_true.mp hany
      obtain ⟨hxo, hxp⟩ := List.mem_filter.mp hx
      simp only [decide_eq_true_eq] at hxp
      exact hnc ⟨x, hxo, hxp.1, hxp.2, hcl⟩
    have hmem : o ∈ (db.overrides.filter
        (fun o => decide (o.physician = phys ∧ o.date = date))).filter
          (fun o => decide (o.is_closed = false)) :=
      List.mem_filter.mpr ⟨List.mem_filter.mpr ⟨ho, by simp [h1, h2]⟩, by simp [h3]⟩
    have hne : ((db.overrides.filter
        (fun o => decide (o.physician = phys ∧ o.date = date))).filter
          (fun o => decide (o.is_closed = false))).insertionSort
            (fun a b => a.start_time ≤ b.start_time) ≠ [] :=
      List.ne_nil_of_mem ((List.perm_insertionSort _ _).mem_iff.mpr hmem)
    have hB : (((db.overrides.filter
        (fun o => decide (o.physician = phys ∧ o.date = date))).filter
          (fun o => decide (o.is_closed = false))).insertionSort
            (fun a b => a.start_time ≤ b.start_time)).isEmpty = false := by
      cases hcase : ((db.overrides.filter
        (fun o => decide (o.physician = phys ∧ o.date = date))).filter
          (fun o => decide (o.is_closed = false))).insertionSort
            (fun a b => a.start_time ≤ b.start_time) with
      | nil => exact absurd hcase hne
      | cons a l => rfl
    rw [if_neg hA, if_pos hB]
    refine ((List.perm_insertionSort _ _).map _).trans (List.Perm.of_eq ?_)
    rw [List.filter_filter]
    apply congrArg
    apply List.filter_congr
    intro x hx
    by_cases hp : x.physician = phys ∧ x.date = date
    · by_cases hc : x.is_closed = false <;> simp [hp.1, hp.2, hc]
    · rw [Decidable.not_and_iff_or_not] at hp
      rcases hp with hp | hp <;> simp [hp]
  · intro hno
    have hfil : db.overrides.filter
        (fun o => decide (o.physician = phys ∧ o.date = date)) = [] := by
      rw [List.filter_eq_nil_iff]
      intro o ho
      simp only [decide_eq_true_eq]
      intro hp
      exact hno ⟨o, ho, hp.1, hp.2⟩
    unfold day_windows_for_physician
    rw [hfil]
    rw [if_neg (by simp), if_neg (by simp)]
    refine (((List.perm_insertionSort _ _).filter _).map _).trans (List.Perm.of_eq ?_)
    rw [List.filter_filter]
    apply congrArg
    apply List.filter_congr
    intro x hx
    by_cases hp : x.physician = phys ∧ x.weekday = date % 7 ∧ x.is_active = true
    · by_cases hc : x.start_time < x.end_time <;>
        simp [hp.1, hp.2.1, hp.2.2, hc]
    · rw [Decidable.not_and_iff_or_not] at hp
      rcases hp with hp | hp
      · simp [hp]
      · rw [Decidable.not_and_iff_or_not] at hp
        rcases hp with hp | hp <;> simp [hp]

/-- C5 witness: the three override-resolution cases evaluated on
concrete states — a closed override empties the day, open overrides
replace the weekly windows, and with no override the filtered weekly
windows are used. -/
theorem c5_resolve_windows_witness :
    day_windows_for_physician db_c5_closed 1 0 = [] ∧
    (day_windows_for_physician db_c5_override 1 0).Perm
      ((db_c5_override.overrides.filter (fun o =>
          o.physician = 1 ∧ o.date = 0 ∧ o.is_closed = false)).map
        (fun o => (o.start_time, o.end_time))) ∧
    (day_windows_for_physician db_c5_weekly 1 0).Perm
      ((db_c5_weekly.weekly.filter (fun w =>
          w.physician = 1 ∧ w.weekday = 0 % 7 ∧ w.is_active = true ∧
            w.start_time < w.end_time)).map
        (fun w => (w.start_time, w.end_time))) :=
  ⟨(c5_resolve_windows db_c5_closed 1 0).1 (by decide),
   (c5_resolve_windows db_c5_override 1 0).2.1 (by decide) (by decide),
   (c5_resolve_windows db_c5_weekly 1 0).2.2 (by decide)⟩

/-- C6: for every window and positive duration, the generated
candidates are exactly the starts that are multiples of the duration
measured from local midnight, are at least the window start, and whose
end fits inside the window (an end exactly at the window end is
included); consecutive candidates differ by the duration, and the first
one is the window start rounded up to the duration grid. -/
theorem c6_candidate_grid (m wstart wend x : Nat) (hm : 0 < m) :
    (x ∈ iter_candidates wstart wend m ↔
      60 * m ∣ x ∧ wstart ≤ x ∧ x + 60 * m ≤ wend) ∧
    List.Chain' (fun a b => b = a + 60 * m) (iter_candidates wstart wend m) ∧
    ((iter_candidates wstart wend m).head? = some x →
      x = round_up_to_step wstart m) := by
  refine ⟨iter_candidates_mem wstart wend m x hm, ?_, ?_⟩
  · exact iter_go_chain (60 * m) wend (wend + 1) (round_up_to_step wstart m)
  · intro h
    exact iter_go_head (60 * m) wend (wend + 1) (round_up_to_step wstart m) x h

/-- C6 witness: the 30-minute grid inside the window 09:00-17:00,
checked at the boundary start 16:30 whose end is exactly the window
end. -/
theorem c6_candidate_grid_witness :
    (59400 ∈ iter_candidates 32400 61200 30 ↔
      60 * 30 ∣ 59400 ∧ 32400 ≤ 59400 ∧ 59400 + 60 * 30 ≤ 61200) ∧
    List.Chain' (fun a b => b = a + 60 * 30) (iter_candidates 32400 61200 30) ∧
    ((iter_candidates 32400 61200 30).head? = some 59400 →
      59400 = round_up_to_step 32400 30) :=
  c6_candidate_grid 30 32400 61200 59400 (by decide)

/-- C7 counterexample: with two overlapping weekly windows each
generating 09:00 and 09:30, the availability list contains both starts
twice — the claim that the result never contains duplicates fails. -/
theorem c7_counterexample :
    get_available_slots db_c7 1 0 30 0 =
      [32400, 32400, 34200, 34200, 36000, 37800] ∧
    ¬ (get_available_slots db_c7 1 0 30 0).Nodup := by decide

/-- C7 amended: the availability list is sorted in non-decreasing
order, but it is not deduplicated: when two resolved windows each yield
the same candidate start, the start appears multiple times. -/
theorem c7_result_sorted (db : DB) (phys date m now : Nat) :
    (get_available_slots db phys date m now).Sorted (· ≤ ·) := by
  unfold get_available_slots
  exact List.sorted_insertionSort _ _

/-- C9: when a saved flexible booking transitions to cancelled, the
resulting slot table is the old one with exactly the rows whose
back-reference names this booking set to unbooked and cleared, every
other row — including rows blocked by a different booking — kept
identical in all fields, in place. -/
theorem c9_cancel_releases_only_own_slots (db db2 : DB) (a old : FlexAppointment)
    (r : Role)
    (hfind : db.flex.find? (fun f => f.id = a.id) = some old)
    (hold : old.status ≠ Status.cancelled)
    (hcan : a.status = Status.cancelled)
    (hsave : flex_save db a r = some db2) :
    db2.slots = db.slots.map (fun s =>
      if s.booked_by_flex = some a.id
      then { s with is_booked := false, booked_by_flex := none } else s) ∧
    (∀ s ∈ db.slots, s.booked_by_flex ≠ some a.id → s ∈ db2.slots) ∧
    (∀ s ∈ db.slots, s.booked_by_flex = some a.id →
      ({ s with is_booked := false, booked_by_flex := none } :
        AvailabilitySlot) ∈ db2.slots) := by
  unfold flex_save at hsave
  rw [hfind] at hsave
  by_cases hcl : flex_clean db a r = false
  · rw [if_pos hcl] at hsave
    exact absurd hsave (by simp)
  · rw [if_neg hcl] at hsave
    have hany : db.flex.any (fun f => decide (f.id = a.id)) = true := by
      refine List.any_eq_true.mpr ⟨old, List.mem_of_find?_eq_some hfind, ?_⟩
      have hp := List.find?_some hfind
      exact hp
    simp [hany, hcan, hold] at hsave
    have hmain : db2.slots = db.slots.map (fun s =>
        if s.booked_by_flex = some a.id
        then { s with is_booked := false, booked_by_flex := none } else s) := by
      rw [← hsave]
      rfl
    refine ⟨hmain, ?_, ?_⟩
    · intro s hs hneq
      rw [hmain]
      exact List.mem_map.mpr ⟨s, hs, by simp [hneq]⟩
    · intro s hs heq
      rw [hmain]
      exact List.mem_map.mpr ⟨s, hs, by simp [heq]⟩

/-- C9 witness: cancelling booking 1 releases only slot row 1, which it
had blocked; the row blocked by booking 5 and the free row are
untouched. -/
theorem c9_cancel_releases_only_own_slots_witness :
    (db_c9.flex.find? (fun f => f.id = appt_c9.id) =
      some ⟨1, 10, 2, 36000, 38700, Status.confirmed⟩) ∧
    (flex_save db_c9 appt_c9 Role.physician = some db_c9_after) ∧
    db_c9_after.slots = db_c9.slots.map (fun s =>
      if s.booked_by_flex = some appt_c9.id
      then { s with is_booked := false, booked_by_flex := none } else s) :=
  ⟨by decide, by decide,
    (c9_cancel_releases_only_own_slots db_c9 db_c9_after appt_c9
      ⟨1, 10, 2, 36000, 38700, Status.confirmed⟩ Role.physician
      (by decide) (by decide) (by decide) (by decide)).1⟩

/-- Minute truncation is idempotent. -/
theorem to_local_minute_idem (x : Nat) :
    to_local_minute (to_local_minute x) = to_local_minute x := by
  unfold to_local_minute
  rw [Nat.mul_div_cancel _ (by norm_num : (0 : Nat) < 60)]

/-- A whole-minute value is fixed by minute truncation. -/
theorem to_local_minute_of_dvd (x : Nat) (h : 60 ∣ x) : to_local_minute x = x := by
  obtain ⟨u, rfl⟩ := h
  unfold to_local_minute
  rw [Nat.mul_div_cancel_left _ (by norm_num : (0 : Nat) < 60)]
  exact Nat.mul_comm u 60

/-- C10: a flexible booking request is accepted exactly when its end is
in the future and its minute-truncated start is a member of the
candidate list `get_available_slots` produces for that provider, the
start's local date, and the requested duration; in particular an
off-grid start or a date with an empty candidate list is rejected no
matter what bookings exist. -/
theorem c10_accept_iff_generated_start (db : DB) (phys start m now : Nat)
    (hm : 0 < m) (s : Nat) :
    serializer_validate db phys start m now = some s ↔
      s = to_local_minute start ∧ now < to_local_minute start + 60 * m ∧
        to_local_minute start ∈
          get_available_slots db phys (to_local_minute start / 86400) m now := by
  unfold serializer_validate
  by_cases h1 : to_local_minute start + 60 * m ≤ now
  · rw [if_pos h1]
    exact iff_of_false (by simp) (by rintro ⟨-, h2, -⟩; omega)
  · rw [if_neg h1]
    by_cases h2 : (get_available_slots db phys (to_local_minute start / 86400)
        m now).isEmpty = true
    · rw [if_pos h2]
      refine iff_of_false (by simp) ?_
      rintro ⟨-, -, hmem⟩
      rw [List.isEmpty_iff] at h2
      rw [h2] at hmem
      exact absurd hmem (List.not_mem_nil _)
    · rw [if_neg h2]
      by_cases h3 : to_local_minute start / 60 ∈
          (get_available_slots db phys (to_local_minute start / 86400) m now).map
            (fun t => to_local_minute t / 60)
      · rw [if_pos h3]
        have hmem : to_local_minute start ∈
            get_available_slots db phys (to_local_minute start / 86400) m now := by
          obtain ⟨t, ht, hkey⟩ := List.mem_map.mp h3
          have h60t : 60 ∣ t :=
            mem_get_available_slots_dvd60 db phys _ m now t hm ht
          have h60s : 60 ∣ to_local_minute start := ⟨start / 60, Nat.mul_comm _ _⟩
          rw [to_local_minute_of_dvd t h60t] at hkey
          obtain ⟨u, hu⟩ := h60t
          obtain ⟨v, hv⟩ := h60s
          have : u = v := by omega
          have heq : t = to_local_minute start := by omega
          rw [heq] at ht
          exact ht
        constructor
        · intro h
          exact ⟨(Option.some_inj.mp h).symm, by omega, hmem⟩
        · rintro ⟨rfl, -, -⟩
          rfl
      · rw [if_neg h3]
        refine iff_of_false (by simp) ?_
        rintro ⟨-, -, hmem⟩
        apply h3
        refine List.mem_map.mpr ⟨to_local_minute start, hmem, ?_⟩
        rw [to_local_minute_idem]

/-- C10 witness: the request at 10:00:30 truncates to 10:00, which lies
on physician 1's 30-minute grid for day 0, so acceptance and grid
membership coincide on this concrete state. -/
theorem c10_accept_iff_generated_start_witness :
    serializer_validate db_c10 1 36030 30 0 = some 36000 ↔
      36000 = to_local_minute 36030 ∧ 0 < to_local_minute 36030 + 60 * 30 ∧
        to_local_minute 36030 ∈
          get_available_slots db_c10 1 (to_local_minute 36030 / 86400) 30 0 :=
  c10_accept_iff_generated_start db_c10 1 36030 30 0 (by decide) 36000

end Carehub
